import Mathlib

/-
Shallow embedding of gitin's `git` package (src/git/repository.go).

The external git engine (git2go / libgit2) is modelled as an explicit
`Store` of oracles: every engine call the Go code makes is a field of
`Store` (or of a handle structure returned by one), returning
`Except GitErr _` exactly where the Go call returns `(T, error)`.
A Go nil-pointer dereference (a panic, not an error return) is modelled
by the distinguished value `GitErr.nilDeref`.
-/

deriving instance DecidableEq for Except

/-- Errors returned by the underlying git engine, plus `nilDeref`, which
models a Go nil-pointer dereference panic. -/
inductive GitErr where
  | err (msg : String) : GitErr
  | nilDeref : GitErr
deriving DecidableEq

/-- Opaque handle to a tree object in the store (`*lib.Tree`). -/
abbrev TreeHandle := Nat

/-- Go `Contributor` struct; `time.Time` is modelled as an integer tick. -/
structure Contributor where
  Name : String
  Email : String
  When : Int
deriving DecidableEq

/-- Raw store commit handle (`*lib.Commit`): the operations `Diff` performs
on it. `tree` models `commit.Tree()`, `parentCount` models
`commit.ParentCount()`, `parent0Tree` models `commit.Parent(0).Tree()`. -/
structure RawCommit where
  tree : Except GitErr TreeHandle
  parentCount : Nat
  parent0Tree : Except GitErr TreeHandle
deriving DecidableEq

/-- Go `type CommitType string`. -/
abbrev CommitType := String

/-- Commit that is not pushed to the remote branch. -/
def LocalCommit : CommitType := "local"

/-- Commit that is recorded locally. -/
def EvenCommit : CommitType := "even"

/-- Commit that is not merged to the local branch. -/
def RemoteCommit : CommitType := "remote"

/-- Go `Commit` struct. `commit` is the back-reference to the raw store
commit object (`*lib.Commit`, nil modelled as `none`). -/
structure Commit where
  commit : Option RawCommit
  Hash : String
  Author : Option Contributor
  Message : String
  Summary : String
  «Type» : CommitType
deriving DecidableEq

/-- Go `Branch` struct. It is an inductive (not a structure) because
`Upstream *Branch` is self-referential. Field order follows the source:
Name, FullName, Hash, Upstream, Ahead, Behind, Clean, isRemote. -/
inductive Branch : Type where
  | mk (Name : String) (FullName : String) (Hash : String)
       (Upstream : Option Branch) (Ahead : List Commit) (Behind : List Commit)
       (Clean : Bool) (isRemote : Bool) : Branch

/-- Accessor for `Branch.Name`. -/
def Branch.Name : Branch → String
  | .mk n _ _ _ _ _ _ _ => n

/-- Accessor for `Branch.FullName`. -/
def Branch.FullName : Branch → String
  | .mk _ fn _ _ _ _ _ _ => fn

/-- Accessor for `Branch.Hash`. -/
def Branch.Hash : Branch → String
  | .mk _ _ h _ _ _ _ _ => h

/-- Accessor for `Branch.Upstream`. -/
def Branch.Upstream : Branch → Option Branch
  | .mk _ _ _ u _ _ _ _ => u

/-- Accessor for `Branch.isRemote`. -/
def Branch.isRemote : Branch → Bool
  | .mk _ _ _ _ _ _ _ ir => ir

/-- Go `Remote` struct (declared but never loaded by the load path). -/
structure Remote where
  Name : String
  URL : List String

/-- One side of a raw engine delta (`lib.DiffFile`); `Oid` stands for
`Oid.String()` of the file's object id. -/
structure RawDeltaFile where
  Path : String
  Oid : String
deriving DecidableEq

/-- Raw engine delta (`lib.DiffDelta`) as returned by `diff.GetDelta(i)`. -/
structure RawDelta where
  Status : Int
  OldFile : RawDeltaFile
  NewFile : RawDeltaFile
deriving DecidableEq

/-- Patch handle (`*lib.Patch`): `render` models `patch.String()`, `free`
models `patch.Free()` (which returns an error in git2go). -/
structure PatchHandle where
  render : Except GitErr String
  free : Except GitErr Unit

/-- Stats handle (`*lib.DiffStats`): `render80` models
`stats.String(lib.DiffStatsFull, 80)`. -/
structure StatsHandle where
  render80 : Except GitErr String

/-- Diff handle (`*lib.Diff`) with the per-call oracles `Diff` uses:
`stats` models `diff.Stats()`, `numDeltas` models `diff.NumDeltas()`,
`patchAt i` models `diff.Patch(i)` and `getDelta i` models
`diff.GetDelta(i)`. -/
structure DiffHandle where
  stats : Except GitErr StatsHandle
  numDeltas : Except GitErr Nat
  patchAt : Nat → Except GitErr PatchHandle
  getDelta : Nat → Except GitErr RawDelta

/-- Resolved upstream tracking branch data: `us.Name()` and
`us.Target().String()` as observed by `loadBranches`. -/
structure UpstreamData where
  name : String
  targetHash : String

/-- One branch as yielded by the engine's branch iterator, with the oracles
`loadBranches` consults: `name` models `branch.Name()`, `refName` models
`branch.Reference.Name()`, `target` models `branch.Target()` (nil as
`none`), `resolved` models `branch.Resolve()` followed by `ref.Target()`
(inner `none` meaning a nil target oid), `upstream` models
`branch.Upstream()` where an error or nil result is collapsed to `none`
(the source only logs a warning in that case). -/
structure RawBranchRef where
  name : Except GitErr String
  refName : String
  target : Option String
  resolved : Except GitErr (Option String)
  isRemote : Bool
  upstream : Option UpstreamData

/-- One commit as yielded by the revision walk, with the fields
`loadCommits` reads from it. -/
structure CommitData where
  handle : RawCommit
  hash : String
  authorName : String
  authorEmail : String
  authorWhen : Int
  summary : String
  message : String

/-- Revision walker (`*lib.RevWalk`): `push` models `walk.Push(oid)` and
`iterate` yields the commits visited when the walk was seeded at the
given oid (the source swallows the error `walk.Iterate` may return). -/
structure WalkHandle where
  push : String → Except GitErr Unit
  iterate : String → List CommitData

/-- The store adapter (`*lib.Repository`): every engine entry point the
orchestration layer calls. -/
structure Store where
  branchIter : Except GitErr (List RawBranchRef)
  head : Except GitErr String
  walk : Except GitErr WalkHandle
  newOid : String → Except GitErr String
  lookupCommit : String → Except GitErr RawCommit
  defaultDiffOptions : Except GitErr Unit
  diffTreeToTree : Option TreeHandle → TreeHandle → Except GitErr DiffHandle

/-- Go `Repository` struct. -/
structure Repository where
  RepoID : String
  Name : String
  AbsPath : String
  repo : Store
  Branches : List Branch
  Commits : List Commit
  Remotes : List Remote

/-- Go `DiffFile` struct. -/
structure DiffFile where
  Path : String
  Hash : String
deriving DecidableEq

/-- Go `DiffDelta` struct. -/
structure DiffDelta where
  Status : Int
  OldFile : DiffFile
  NewFile : DiffFile
  Patch : String
deriving DecidableEq

/-- Go `Diff` struct. -/
structure Diff where
  deltas : List DiffDelta
  stats : List String
  patchs : List String
deriving DecidableEq

/-- Go `func (d *Diff) Deltas() []*DiffDelta`. -/
def Diff.Deltas (d : Diff) : List DiffDelta := d.deltas

/-- Go `func (d *Diff) Patches() []string`. -/
def Diff.Patches (d : Diff) : List String := d.patchs

/-- Go `func (d *Diff) Stats() []string`. -/
def Diff.Stats (d : Diff) : List String := d.stats

/-- Model of Go `strings.Split(s, sep)` for a one-character separator
(the source only splits on a single `"\n"`). -/
def stringsSplit (s : String) (sep : Char) : List String :=
  (s.data.splitOn sep).map (fun cs => String.mk cs)

/-- Hash resolution step of `loadBranches`: `rawOid := branch.Target()`;
if that is nil, `branch.Resolve()` and take the resolved ref's target.
A nil resolved target would make `rawOid.String()` panic. -/
def branchHash (br : RawBranchRef) : Except GitErr String :=
  match br.target with
  | some oid => .ok oid
  | none =>
    match br.resolved with
    | .error e => .error e
    | .ok none => .error .nilDeref
    | .ok (some oid) => .ok oid

/-- Upstream resolution step of `loadBranches`: only attempted for
non-remote branches; when present, the upstream is materialized as the
partial `&Branch{FullName: us.Name(), Hash: us.Target().String(),
isRemote: true}` (all other fields at their Go zero values). -/
def branchUpstream (br : RawBranchRef) : Option Branch :=
  if br.isRemote then none
  else
    match br.upstream with
    | none => none
    | some us => some (Branch.mk "" us.name us.targetHash none [] [] false true)

/-- Body of the `branchIter.ForEach` loop in `loadBranches`: each raw
branch is resolved and appended to `bs`; an error from `branch.Name()` or
from hash resolution aborts the iteration, and the branches collected so
far are still assigned to `r.Branches` alongside the returned error. -/
def loadBranchesFold : List RawBranchRef → List Branch → List Branch × Option GitErr
  | [], bs => (bs, none)
  | br :: rest, bs =>
    match br.name with
    | .error e => (bs, some e)
    | .ok nm =>
      match branchHash br with
      | .error e => (bs, some e)
      | .ok hash =>
        loadBranchesFold rest
          (bs ++ [Branch.mk nm br.refName hash (branchUpstream br) [] [] false br.isRemote])

/-- Go `func (r *Repository) loadBranches() error`, returning the branch
list that the source assigns to `r.Branches` together with the returned
error (`none` = nil). If the branch iterator cannot be created the source
returns the error with `r.Branches` left at its initial nil. -/
def Repository.loadBranches (r : Repository) : List Branch × Option GitErr :=
  match r.repo.branchIter with
  | .error e => ([], some e)
  | .ok raws => loadBranchesFold raws []

/-- Current-branch scan in `loadCommits`: the Go loop assigns
`currentbranch = b` for every branch whose hash equals the HEAD target,
so the last match wins. -/
def findCurrentBranch (headHash : String) (branches : List Branch) : Option Branch :=
  branches.foldl (fun cur b => if headHash == b.Hash then some b else cur) none

/-- Commit materialization inside the `walk.Iterate` callback of
`loadCommits`: hash, author triple, summary and message are read;
`Type` is left at its zero value. -/
def materializeCommit (cd : CommitData) : Commit :=
  { commit := some cd.handle,
    Hash := cd.hash,
    Author := some { Name := cd.authorName, Email := cd.authorEmail, When := cd.authorWhen },
    Message := cd.message,
    Summary := cd.summary,
    «Type» := "" }

/-- Go `func (r *Repository) loadCommits() error`, returning the commit
list the source assigns to `r.Commits`. Note that when a current branch
is found, the source reads `currentbranch.Upstream.Hash` without a nil
check, so a current branch without upstream is a nil-pointer dereference
(`GitErr.nilDeref`), not a fallback to HEAD. -/
def Repository.loadCommits (r : Repository) : Except GitErr (List Commit) :=
  match r.repo.head with
  | .error e => .error e
  | .ok headHash =>
    match r.repo.walk with
    | .error e => .error e
    | .ok walk =>
      match findCurrentBranch headHash r.Branches with
      | some currentbranch =>
        match currentbranch.Upstream with
        | none => .error .nilDeref
        | some us =>
          match r.repo.newOid us.Hash with
          | .error e => .error e
          | .ok oid =>
            match walk.push oid with
            | .error e => .error e
            | .ok _ => .ok ((walk.iterate oid).map materializeCommit)
      | none =>
        match walk.push headHash with
        | .error e => .error e
        | .ok _ => .ok ((walk.iterate headHash).map materializeCommit)

/-- The `DiffDelta` value built inside `Diff`'s loop from the raw delta
`dd` and the rendered patch text (`d.Patch = patchtext`). -/
def mkDelta (dd : RawDelta) (patchtext : String) : DiffDelta :=
  { Status := dd.Status,
    NewFile := { Path := dd.NewFile.Path, Hash := dd.NewFile.Oid },
    OldFile := { Path := dd.OldFile.Path, Hash := dd.OldFile.Oid },
    Patch := patchtext }

/-- Per-delta loop of `Diff` (`for i := 0; i < deltas; i++`), iterating
over the index list. A failure of `diff.Patch(i)`, `diff.GetDelta(i)` or
`patch.String()` hits a `continue`; a failing `patch.Free()` returns its
error immediately (the source appends to its local slices before calling
`Free`, but on that error path the local slices are discarded, so
checking `free` before appending is observationally identical). -/
def diffLoop (diffH : DiffHandle) :
    List Nat → List DiffDelta → List String → Except GitErr (List DiffDelta × List String)
  | [], ddeltas, patchs => .ok (ddeltas, patchs)
  | i :: rest, ddeltas, patchs =>
    match diffH.patchAt i with
    | .error _ => diffLoop diffH rest ddeltas patchs
    | .ok patch =>
      match diffH.getDelta i with
      | .error _ => diffLoop diffH rest ddeltas patchs
      | .ok dd =>
        match patch.render with
        | .error _ => diffLoop diffH rest ddeltas patchs
        | .ok patchtext =>
          match patch.free with
          | .error e => .error e
          | .ok _ =>
            diffLoop diffH rest (ddeltas ++ [mkDelta dd patchtext]) (patchs ++ [patchtext])

/-- Parent-tree resolution of `Diff`: with at least one parent, take
`commit.Parent(0).Tree()`; otherwise the parent tree stays nil (diff
against an empty tree). -/
def parentTree (rc : RawCommit) : Except GitErr (Option TreeHandle) :=
  if 0 < rc.parentCount then
    match rc.parent0Tree with
    | .error e => .error e
    | .ok t => .ok (some t)
  else .ok none

/-- Go `func (r *Repository) Diff(c *Commit) (*Diff, error)`. Calling it
on a `Commit` whose raw handle is nil dereferences nil
(`c.commit.Tree()`). -/
def Repository.Diff (r : Repository) (c : Commit) : Except GitErr Diff :=
  match c.commit with
  | none => .error .nilDeref
  | some rc =>
    match rc.tree with
    | .error e => .error e
    | .ok cTree =>
      match parentTree rc with
      | .error e => .error e
      | .ok pTree =>
        match r.repo.defaultDiffOptions with
        | .error e => .error e
        | .ok _ =>
          match r.repo.diffTreeToTree pTree cTree with
          | .error e => .error e
          | .ok diffH =>
            match diffH.stats with
            | .error e => .error e
            | .ok statsH =>
              match statsH.render80 with
              | .error e => .error e
              | .ok statsText =>
                match diffH.numDeltas with
                | .error e => .error e
                | .ok deltas =>
                  match diffLoop diffH (List.range deltas) [] [] with
                  | .error e => .error e
                  | .ok (ddeltas, patchs) =>
                    .ok { deltas := ddeltas,
                          stats := stringsSplit statsText '\n',
                          patchs := patchs }

/-- Result type of the diff entry points, written as an abbreviation
because inside the `Repository` namespace the bare name `Diff` resolves
to `Repository.Diff`. -/
abbrev DiffResult := Except GitErr Diff

/-- Go `func (r *Repository) DiffFromHash(hash string) (*Diff, error)`:
parse the hash, look the commit up, and delegate to `Diff` with a
`Commit` carrying only the raw handle (every other field at its Go zero
value). -/
def Repository.DiffFromHash (r : Repository) (hash : String) : DiffResult :=
  match r.repo.newOid hash with
  | .error e => .error e
  | .ok objectid =>
    match r.repo.lookupCommit objectid with
    | .error e => .error e
    | .ok c =>
      r.Diff { commit := some c, Hash := "", Author := none, Message := "",
               Summary := "", «Type» := "" }

/-- The delta `Diff`'s loop produces at index `i`, if all three extraction
steps (`diff.Patch(i)`, `diff.GetDelta(i)`, `patch.String()`) succeed. -/
def extractAt (diffH : DiffHandle) (i : Nat) : Option DiffDelta :=
  match diffH.patchAt i with
  | .error _ => none
  | .ok patch =>
    match diffH.getDelta i with
    | .error _ => none
    | .ok dd =>
      match patch.render with
      | .error _ => none
      | .ok patchtext => some (mkDelta dd patchtext)

/-- Index `i` will not make `patch.Free()` fail: either it never reaches
the `Free` call (acquisition or extraction fails), or `free` succeeds. -/
def freeSucceedsAt (diffH : DiffHandle) (i : Nat) : Prop :=
  match diffH.patchAt i with
  | .error _ => True
  | .ok patch => (extractAt diffH i).isSome → patch.free = .ok ()

/-- Model of the Go string slice `s[:n]`: defined only when `n` is within
bounds; out of bounds is a panic, modelled as `none`. -/
def goStrTake (s : String) (n : Nat) : Option String :=
  if n ≤ s.length then some (s.take n) else none

/-- Go `func (d *DiffDelta) String() string`. The hash abbreviations use
the Go slice `Hash[:7]`, which panics (here: `none`) on a hash shorter
than 7 characters. -/
def DiffDelta.String (d : DiffDelta) : Option String :=
  let s0 := toString d.Status ++ " "
  if 0 < d.OldFile.Path.length ∧ 0 < d.NewFile.Path.length then
    if d.OldFile.Path = d.NewFile.Path then
      match goStrTake d.OldFile.Hash 7, goStrTake d.NewFile.Hash 7 with
      | some oldAbbrev, some newAbbrev =>
        some (s0 ++ d.OldFile.Path ++ " " ++ oldAbbrev ++ ".." ++ newAbbrev)
      | _, _ => none
    else
      some (s0 ++ d.OldFile.Path ++ " -> " ++ d.NewFile.Path)
  else
    some s0

/-- Resource events of `Diff`: acquisition and release of the commit
tree, the parent tree, the diff object, and the per-index patch handles. -/
inductive DiffEvent where
  | acquireTree (t : TreeHandle)
  | freeTree (t : TreeHandle)
  | acquireDiff
  | freeDiff
  | acquirePatch (i : Nat)
  | freePatch (i : Nat)
deriving DecidableEq

/-- Resource events of `Diff`'s per-delta loop, mirroring its control
flow: `diff.Patch(i)` succeeding acquires patch `i`; `patch.Free()` is
only reached when both `diff.GetDelta(i)` and `patch.String()` succeed
(the `continue` paths skip it); a failing `Free` still counts as a
release attempt and ends the loop. -/
def diffLoopEvents (diffH : DiffHandle) : List Nat → List DiffEvent
  | [] => []
  | i :: rest =>
    match diffH.patchAt i with
    | .error _ => diffLoopEvents diffH rest
    | .ok patch =>
      DiffEvent.acquirePatch i ::
        (match diffH.getDelta i with
         | .error _ => diffLoopEvents diffH rest
         | .ok _ =>
           match patch.render with
           | .error _ => diffLoopEvents diffH rest
           | .ok _ =>
             match patch.free with
             | .error _ => [DiffEvent.freePatch i]
             | .ok _ => DiffEvent.freePatch i :: diffLoopEvents diffH rest)

/-- Resource events of `Diff` after both trees are acquired; the deferred
`diff.Free()` runs on every path past `DiffTreeToTree`. -/
def diffEventsAfterTrees (r : Repository)
    (cTree : TreeHandle) (pTree : Option TreeHandle) : List DiffEvent :=
  match r.repo.defaultDiffOptions with
  | .error _ => []
  | .ok _ =>
    match r.repo.diffTreeToTree pTree cTree with
    | .error _ => []
    | .ok diffH =>
      DiffEvent.acquireDiff ::
        (match diffH.stats with
         | .error _ => [DiffEvent.freeDiff]
         | .ok statsH =>
           match statsH.render80 with
           | .error _ => [DiffEvent.freeDiff]
           | .ok _ =>
             match diffH.numDeltas with
             | .error _ => [DiffEvent.freeDiff]
             | .ok deltas => diffLoopEvents diffH (List.range deltas) ++ [DiffEvent.freeDiff])

/-- Resource events of a whole `Diff` call. The deferred frees of the
commit tree and the parent tree run (in LIFO order) on every exit path
once the corresponding tree was acquired. -/
def diffEvents (r : Repository) (c : Commit) : List DiffEvent :=
  match c.commit with
  | none => []
  | some rc =>
    match rc.tree with
    | .error _ => []
    | .ok cTree =>
      if 0 < rc.parentCount then
        match rc.parent0Tree with
        | .error _ => [DiffEvent.acquireTree cTree, DiffEvent.freeTree cTree]
        | .ok pTree =>
          DiffEvent.acquireTree cTree :: DiffEvent.acquireTree pTree ::
            (diffEventsAfterTrees r cTree (some pTree) ++
              [DiffEvent.freeTree pTree, DiffEvent.freeTree cTree])
      else
        DiffEvent.acquireTree cTree ::
          (diffEventsAfterTrees r cTree none ++ [DiffEvent.freeTree cTree])

/-- Modelled from the spec: the zero object id rendered by the engine for
the absent side of an addition or deletion. -/
def zeroOid : String := "0000000000000000000000000000000000000000"

/-- Modelled from the spec: the raw delta the engine reports for a file
present only in the new tree — "diffing against nothing … surfaces every
file in the commit as an addition": an empty `OldFile.Path`. -/
def modelAddRaw (g : String × String) : RawDelta :=
  { Status := 1,
    OldFile := { Path := "", Oid := zeroOid },
    NewFile := { Path := g.1, Oid := g.2 } }

/-- Modelled from the spec: the unified patch text the engine renders for
a raw delta (its content is not specified beyond being per-file text). -/
def modelPatchText (dd : RawDelta) : String :=
  "--- " ++ dd.OldFile.Path ++ "+++ " ++ dd.NewFile.Path

/-- Modelled from the spec: the engine's tree-to-tree diff, on trees
modelled as path/object-id lists — one delta per deleted, modified or
added file, additions carrying an empty `OldFile.Path`. -/
def modelTreeDiff (oldT newT : List (String × String)) : List RawDelta :=
  oldT.filterMap (fun f =>
    match newT.find? (fun g => g.1 == f.1) with
    | none => some { Status := 2,
                     OldFile := { Path := f.1, Oid := f.2 },
                     NewFile := { Path := "", Oid := zeroOid } }
    | some g =>
      if f.2 == g.2 then none
      else some { Status := 3,
                  OldFile := { Path := f.1, Oid := f.2 },
                  NewFile := { Path := g.1, Oid := g.2 } })
  ++ newT.filterMap (fun g =>
    match oldT.find? (fun f => f.1 == g.1) with
    | none => some (modelAddRaw g)
    | some _ => none)

/-- Modelled from the spec: a diff handle over the model tree diff, with
extraction and release oracles that always succeed in range. -/
def modelDiffHandle (oldT newT : List (String × String)) : DiffHandle :=
  { stats := .ok { render80 := .ok "" },
    numDeltas := .ok (modelTreeDiff oldT newT).length,
    patchAt := fun i =>
      match (modelTreeDiff oldT newT).get? i with
      | some dd => .ok { render := .ok (modelPatchText dd), free := .ok () }
      | none => .error (.err "patch index out of range"),
    getDelta := fun i =>
      match (modelTreeDiff oldT newT).get? i with
      | some dd => .ok dd
      | none => .error (.err "delta index out of range") }

/-- Modelled from the spec: a store whose `DiffTreeToTree` diffs the
model trees named by the handles, a nil old tree standing for the empty
tree. -/
def modelStore (trees : TreeHandle → List (String × String)) : Store :=
  { branchIter := .error (.err "not modelled"),
    head := .error (.err "not modelled"),
    walk := .error (.err "not modelled"),
    newOid := fun s => .ok s,
    lookupCommit := fun _ => .error (.err "not modelled"),
    defaultDiffOptions := .ok (),
    diffTreeToTree := fun pTree cTree =>
      .ok (modelDiffHandle
        (match pTree with | none => [] | some t => trees t)
        (trees cTree)) }

/-- The `DiffDelta` ultimately produced by `Diff` for an engine addition
delta of file `g` under the model store. -/
def modelAddDelta (g : String × String) : DiffDelta :=
  mkDelta (modelAddRaw g) (modelPatchText (modelAddRaw g))

/-- A walker yielding no commits, for concrete instances. -/
def emptyWalk : WalkHandle :=
  { push := fun _ => .ok (), iterate := fun _ => [] }

/-- A store whose unused oracles fail, for concrete instances. -/
def baseStore : Store :=
  { branchIter := .ok [],
    head := .error (.err "unset"),
    walk := .ok emptyWalk,
    newOid := fun s => .ok s,
    lookupCommit := fun _ => .error (.err "unset"),
    defaultDiffOptions := .ok (),
    diffTreeToTree := fun _ _ => .error (.err "unset") }

/-- A repository around a given store and branch list. -/
def mkRepo (st : Store) (bs : List Branch) : Repository :=
  { RepoID := "", Name := "", AbsPath := "", repo := st,
    Branches := bs, Commits := [], Remotes := [] }

/-- A commit holding only a raw store handle (as `DiffFromHash` builds). -/
def commitOfHandle (rc : RawCommit) : Commit :=
  { commit := some rc, Hash := "", Author := none, Message := "",
    Summary := "", «Type» := "" }

/-- A raw handle for a parentless commit whose tree is handle 0. -/
def rootRawCommit : RawCommit :=
  { tree := .ok 0, parentCount := 0, parent0Tree := .error (.err "no parent") }

/-- Concrete instance for the walk-seeding analysis: HEAD at `"aaaa"`,
one local branch at that hash with no configured upstream. -/
def repoC1 : Repository :=
  mkRepo { baseStore with head := .ok "aaaa" }
    [Branch.mk "master" "refs/heads/master" "aaaa" none [] [] false false]

/-- Concrete modified-file raw delta. -/
def rdC2 : RawDelta :=
  { Status := 3,
    OldFile := { Path := "a.txt", Oid := "1111111111111111111111111111111111111111" },
    NewFile := { Path := "a.txt", Oid := "2222222222222222222222222222222222222222" } }

/-- Concrete diff handle: one extractable delta, and a rendered stat text
of two lines (per-file line plus summary line, as `DiffStatsFull`
renders). -/
def dhC2 : DiffHandle :=
  { stats := .ok { render80 := .ok " a.txt | 1 +\n 1 file changed, 1 insertion(+)" },
    numDeltas := .ok 1,
    patchAt := fun _ => .ok { render := .ok "patch-a", free := .ok () },
    getDelta := fun _ => .ok rdC2 }

/-- Repository serving `dhC2` from `DiffTreeToTree`. -/
def repoC2 : Repository :=
  mkRepo { baseStore with diffTreeToTree := fun _ _ => .ok dhC2 } []

/-- The diff `repoC2.Diff` computes on a root commit: one delta and one
patch, but two stat lines. -/
def diffC2 : Diff :=
  { deltas := [mkDelta rdC2 "patch-a"],
    stats := [" a.txt | 1 +", " 1 file changed, 1 insertion(+)"],
    patchs := ["patch-a"] }

/-- Concrete diff handle on which `diff.Patch(0)` succeeds but
`diff.GetDelta(0)` fails, so iteration 0 is skipped. -/
def dhC3 : DiffHandle :=
  { stats := .ok { render80 := .ok "" },
    numDeltas := .ok 1,
    patchAt := fun _ => .ok { render := .ok "patch-text", free := .ok () },
    getDelta := fun _ => .error (.err "corrupt delta") }

/-- Repository serving `dhC3` from `DiffTreeToTree`. -/
def repoC3 : Repository :=
  mkRepo { baseStore with diffTreeToTree := fun _ _ => .ok dhC3 } []

/-- Concrete diff handle with one fully extractable delta. -/
def dhC4 : DiffHandle :=
  { stats := .ok { render80 := .ok "" },
    numDeltas := .ok 1,
    patchAt := fun _ => .ok { render := .ok "patch-a", free := .ok () },
    getDelta := fun _ => .ok rdC2 }

/-- Repository serving `dhC4` from `DiffTreeToTree`. -/
def repoC4 : Repository :=
  mkRepo { baseStore with diffTreeToTree := fun _ _ => .ok dhC4 } []

/-- The diff `repoC4.Diff` computes on a root commit. -/
def diffC4 : Diff :=
  { deltas := [mkDelta rdC2 "patch-a"], stats := [""], patchs := ["patch-a"] }

/-- Concrete diff handle reporting two deltas of which only index 0 is
extractable (`diff.Patch(1)` fails). -/
def dhC5 : DiffHandle :=
  { stats := .ok { render80 := .ok "" },
    numDeltas := .ok 2,
    patchAt := fun i =>
      if i == 0 then .ok { render := .ok "patch-a", free := .ok () }
      else .error (.err "corrupt patch"),
    getDelta := fun _ => .ok rdC2 }

/-- Repository serving `dhC5` from `DiffTreeToTree`. -/
def repoC5 : Repository :=
  mkRepo { baseStore with diffTreeToTree := fun _ _ => .ok dhC5 } []

/-- Concrete patch handle whose release fails. -/
def patchC6 : PatchHandle :=
  { render := .ok "patch-a", free := .error (.err "free failed") }

/-- Concrete diff handle on which releasing the patch at index 0 fails. -/
def dhC6 : DiffHandle :=
  { stats := .ok { render80 := .ok "" },
    numDeltas := .ok 1,
    patchAt := fun _ => .ok patchC6,
    getDelta := fun _ => .ok rdC2 }

/-- Repository serving `dhC6` from `DiffTreeToTree`. -/
def repoC6 : Repository :=
  mkRepo { baseStore with diffTreeToTree := fun _ _ => .ok dhC6 } []

/-- Concrete raw branch: local, with a configured upstream. -/
def rawBranchLocalC7 : RawBranchRef :=
  { name := .ok "master",
    refName := "refs/heads/master",
    target := some "aaaa",
    resolved := .ok (some "aaaa"),
    isRemote := false,
    upstream := some { name := "refs/remotes/origin/master", targetHash := "bbbb" } }

/-- Concrete raw branch: remote. -/
def rawBranchRemoteC7 : RawBranchRef :=
  { name := .ok "origin/master",
    refName := "refs/remotes/origin/master",
    target := some "bbbb",
    resolved := .ok (some "bbbb"),
    isRemote := true,
    upstream := none }

/-- Repository whose branch iterator yields the two branches above. -/
def repoC7 : Repository :=
  mkRepo { baseStore with branchIter := .ok [rawBranchLocalC7, rawBranchRemoteC7] } []

/-- The local branch `loadBranches` builds from `rawBranchLocalC7`. -/
def branchC7 : Branch :=
  Branch.mk "master" "refs/heads/master" "aaaa"
    (some (Branch.mk "" "refs/remotes/origin/master" "bbbb" none [] [] false true))
    [] [] false false

/-- The upstream reference carried by `branchC7`. -/
def upstreamC7 : Branch :=
  Branch.mk "" "refs/remotes/origin/master" "bbbb" none [] [] false true

/-- Store resolving hash `"abcd"` to `rootRawCommit` and serving `dhC4`
style diffs, for comparing `DiffFromHash` with `Diff`. -/
def storeC8 : Store :=
  { baseStore with
    lookupCommit := fun s => if s == "abcd" then .ok rootRawCommit else .error (.err "no commit"),
    diffTreeToTree := fun _ _ => .ok dhC4 }

/-- Repository around `storeC8`. -/
def repoC8 : Repository := mkRepo storeC8 []

/-- A fully materialized commit carrying the same raw handle that
`lookupCommit "abcd"` resolves to. -/
def commitC8 : Commit :=
  { commit := some rootRawCommit, Hash := "abcd",
    Author := some { Name := "ann", Email := "ann@example.com", When := 0 },
    Message := "full message", Summary := "summary", «Type» := "" }

/-- Model tree table for the root-commit analysis: tree handle 0 holds
two files. -/
def treesC9 : TreeHandle → List (String × String) :=
  fun _ => [("a.txt", "1111111111111111111111111111111111111111"),
            ("b.txt", "2222222222222222222222222222222222222222")]

/-- Repository over the spec-modelled store with `treesC9`. -/
def repoC9 : Repository := mkRepo (modelStore treesC9) []

/-- Concrete delta with equal non-empty paths and full 40-character
hashes. -/
def deltaC10 : DiffDelta :=
  { Status := 3,
    OldFile := { Path := "a.txt", Hash := "0123456789abcdef0123456789abcdef01234567" },
    NewFile := { Path := "a.txt", Hash := "fedcba9876543210fedcba9876543210fedcba98" },
    Patch := "patch-a" }

/-- The loop keeps the patch-text accumulator equal to the `Patch` fields
of the delta accumulator. -/
theorem diffLoop_aligned (diffH : DiffHandle) (l : List Nat) :
    ∀ (ds : List DiffDelta) (ps : List String) (res : List DiffDelta × List String),
      ps = ds.map DiffDelta.Patch → diffLoop diffH l ds ps = .ok res →
      res.2 = res.1.map DiffDelta.Patch := by
  induction l with
  | nil =>
    intro ds ps res hps h
    simp only [diffLoop] at h
    injection h with h
    subst h
    exact hps
  | cons i rest ih =>
    intro ds ps res hps h
    simp only [diffLoop] at h
    cases hpa : diffH.patchAt i with
    | error e => simp only [hpa] at h; exact ih ds ps res hps h
    | ok patch =>
      simp only [hpa] at h
      cases hgd : diffH.getDelta i with
      | error e => simp only [hgd] at h; exact ih ds ps res hps h
      | ok dd =>
        simp only [hgd] at h
        cases hrd : patch.render with
        | error e => simp only [hrd] at h; exact ih ds ps res hps h
        | ok patchtext =>
          simp only [hrd] at h
          cases hf : patch.free with
          | error e => simp only [hf] at h; exact Except.noConfusion h
          | ok u =>
            simp only [hf] at h
            refine ih (ds ++ [mkDelta dd patchtext]) (ps ++ [patchtext]) res ?_ h
            simp [hps, mkDelta]

/-- When no release fails, the loop returns the accumulated lists extended
by the extractable deltas, in index order. -/
theorem diffLoop_ok (diffH : DiffHandle) (l : List Nat) :
    ∀ (ds : List DiffDelta) (ps : List String),
      (∀ i ∈ l, freeSucceedsAt diffH i) →
      diffLoop diffH l ds ps =
        .ok (ds ++ l.filterMap (extractAt diffH),
             ps ++ (l.filterMap (extractAt diffH)).map DiffDelta.Patch) := by
  induction l with
  | nil => intro ds ps _; simp [diffLoop]
  | cons i rest ih =>
    intro ds ps hfree
    have hfi := hfree i (List.mem_cons_self i rest)
    have hfr : ∀ j ∈ rest, freeSucceedsAt diffH j :=
      fun j hj => hfree j (List.mem_cons_of_mem i hj)
    cases hpa : diffH.patchAt i with
    | error e =>
      have hx : extractAt diffH i = none := by simp [extractAt, hpa]
      simp only [diffLoop, hpa]
      rw [ih ds ps hfr]
      simp [List.filterMap_cons, hx]
    | ok patch =>
      cases hgd : diffH.getDelta i with
      | error e =>
        have hx : extractAt diffH i = none := by simp [extractAt, hpa, hgd]
        simp only [diffLoop, hpa, hgd]
        rw [ih ds ps hfr]
        simp [List.filterMap_cons, hx]
      | ok dd =>
        cases hrd : patch.render with
        | error e =>
          have hx : extractAt diffH i = none := by simp [extractAt, hpa, hgd, hrd]
          simp only [diffLoop, hpa, hgd, hrd]
          rw [ih ds ps hfr]
          simp [List.filterMap_cons, hx]
        | ok patchtext =>
          have hx : extractAt diffH i = some (mkDelta dd patchtext) := by
            simp [extractAt, hpa, hgd, hrd]
          have hf : patch.free = .ok () := by
            simp only [freeSucceedsAt, hpa] at hfi
            exact hfi (by simp [hx])
          simp only [diffLoop, hpa, hgd, hrd, hf]
          rw [ih (ds ++ [mkDelta dd patchtext]) (ps ++ [patchtext]) hfr]
          simp [List.filterMap_cons, hx, mkDelta]

/-- A failing `patch.Free()` at the first fully extractable index makes
the loop return that error immediately, whatever the later indices hold. -/
theorem diffLoop_error (diffH : DiffHandle) (i : Nat) (patch : PatchHandle) (dd : RawDelta)
    (patchtext : String) (e : GitErr)
    (hpa : diffH.patchAt i = .ok patch) (hgd : diffH.getDelta i = .ok dd)
    (hrd : patch.render = .ok patchtext) (hf : patch.free = .error e) :
    ∀ (l1 l2 : List Nat) (ds : List DiffDelta) (ps : List String),
      (∀ j ∈ l1, freeSucceedsAt diffH j) →
      diffLoop diffH (l1 ++ i :: l2) ds ps = .error e := by
  intro l1
  induction l1 with
  | nil =>
    intro l2 ds ps _
    simp only [List.nil_append, diffLoop, hpa, hgd, hrd, hf]
  | cons j rest ih =>
    intro l2 ds ps hfree
    have hfj := hfree j (List.mem_cons_self j rest)
    have hfr : ∀ k ∈ rest, freeSucceedsAt diffH k :=
      fun k hk => hfree k (List.mem_cons_of_mem j hk)
    cases hpaj : diffH.patchAt j with
    | error e2 =>
      simp only [List.cons_append, diffLoop, hpaj]
      exact ih l2 ds ps hfr
    | ok patchj =>
      cases hgdj : diffH.getDelta j with
      | error e2 =>
        simp only [List.cons_append, diffLoop, hpaj, hgdj]
        exact ih l2 ds ps hfr
      | ok ddj =>
        cases hrdj : patchj.render with
        | error e2 =>
          simp only [List.cons_append, diffLoop, hpaj, hgdj, hrdj]
          exact ih l2 ds ps hfr
        | ok tj =>
          have hxj : extractAt diffH j = some (mkDelta ddj tj) := by
            simp [extractAt, hpaj, hgdj, hrdj]
          have hfj2 : patchj.free = .ok () := by
            simp only [freeSucceedsAt, hpaj] at hfj
            exact hfj (by simp [hxj])
          simp only [List.cons_append, diffLoop, hpaj, hgdj, hrdj, hfj2]
          exact ih l2 _ _ hfr

/-- Unfolding of `Diff` once every step before the loop has succeeded. -/
theorem diff_eq_loop (r : Repository) (c : Commit) (rc : RawCommit) (cTree : TreeHandle)
    (pTree : Option TreeHandle) (diffH : DiffHandle) (statsH : StatsHandle)
    (statsText : String) (n : Nat)
    (hc : c.commit = some rc) (ht : rc.tree = .ok cTree) (hp : parentTree rc = .ok pTree)
    (ho : r.repo.defaultDiffOptions = .ok ())
    (hd : r.repo.diffTreeToTree pTree cTree = .ok diffH)
    (hs : diffH.stats = .ok statsH) (hr : statsH.render80 = .ok statsText)
    (hn : diffH.numDeltas = .ok n) :
    r.Diff c =
      match diffLoop diffH (List.range n) [] [] with
      | .error e => .error e
      | .ok (ddeltas, patchs) =>
        .ok { deltas := ddeltas, stats := stringsSplit statsText '\n', patchs := patchs } := by
  unfold Repository.Diff
  simp only [hc, ht, hp, ho, hd, hs, hr, hn]

/-- Inversion: a successful `Diff` call pins down every pre-loop step and
shows the result lists come from the loop over all delta indices. -/
theorem diff_ok_inv (r : Repository) (c : Commit) (d : Diff) (h : r.Diff c = .ok d) :
    ∃ rc cTree pTree diffH statsH statsText n,
      c.commit = some rc ∧ rc.tree = .ok cTree ∧ parentTree rc = .ok pTree ∧
      r.repo.defaultDiffOptions = .ok () ∧
      r.repo.diffTreeToTree pTree cTree = .ok diffH ∧
      diffH.stats = .ok statsH ∧ statsH.render80 = .ok statsText ∧
      diffH.numDeltas = .ok n ∧
      diffLoop diffH (List.range n) [] [] = .ok (d.deltas, d.patchs) ∧
      d.stats = stringsSplit statsText '\n' := by
  unfold Repository.Diff at h
  cases hc : c.commit with
  | none => simp only [hc] at h; exact Except.noConfusion h
  | some rc =>
  simp only [hc] at h
  cases ht : rc.tree with
  | error e => simp only [ht] at h; exact Except.noConfusion h
  | ok cTree =>
  simp only [ht] at h
  cases hp : parentTree rc with
  | error e => simp only [hp] at h; exact Except.noConfusion h
  | ok pTree =>
  simp only [hp] at h
  cases ho : r.repo.defaultDiffOptions with
  | error e => simp only [ho] at h; exact Except.noConfusion h
  | ok u =>
  cases u
  simp only [ho] at h
  cases hd : r.repo.diffTreeToTree pTree cTree with
  | error e => simp only [hd] at h; exact Except.noConfusion h
  | ok diffH =>
  simp only [hd] at h
  cases hs : diffH.stats with
  | error e => simp only [hs] at h; exact Except.noConfusion h
  | ok statsH =>
  simp only [hs] at h
  cases hrr : statsH.render80 with
  | error e => simp only [hrr] at h; exact Except.noConfusion h
  | ok statsText =>
  simp only [hrr] at h
  cases hn : diffH.numDeltas with
  | error e => simp only [hn] at h; exact Except.noConfusion h
  | ok n =>
  simp only [hn] at h
  cases hloop : diffLoop diffH (List.range n) [] [] with
  | error e => simp only [hloop] at h; exact Except.noConfusion h
  | ok pr =>
  obtain ⟨ds, ps⟩ := pr
  simp only [hloop] at h
  injection h with h
  subst h
  exact ⟨rc, cTree, pTree, diffH, statsH, statsText, n,
    rfl, ht, hp, rfl, hd, hs, hrr, hn, hloop, rfl⟩

/-- Inversion of a successful `DiffFromHash` call. -/
theorem diffFromHash_ok_inv (r : Repository) (hashArg : String) (d : Diff)
    (h : r.DiffFromHash hashArg = .ok d) :
    ∃ oid rc, r.repo.newOid hashArg = .ok oid ∧ r.repo.lookupCommit oid = .ok rc ∧
      r.Diff { commit := some rc, Hash := "", Author := none, Message := "",
               Summary := "", «Type» := "" } = .ok d := by
  unfold Repository.DiffFromHash at h
  cases h1 : r.repo.newOid hashArg with
  | error e => simp only [h1] at h; exact Except.noConfusion h
  | ok oid =>
    simp only [h1] at h
    cases h2 : r.repo.lookupCommit oid with
    | error e => simp only [h2] at h; exact Except.noConfusion h
    | ok rc =>
      simp only [h2] at h
      exact ⟨oid, rc, rfl, h2, h⟩

/-- `Diff` reads nothing of its `Commit` argument but the raw handle. -/
theorem diff_commit_eq (r : Repository) (c1 c2 : Commit) (h : c1.commit = c2.commit) :
    r.Diff c1 = r.Diff c2 := by
  unfold Repository.Diff
  rw [h]

/-- An index function that is total on a list turns `filterMap` over the
index range into `map`. -/
theorem filterMap_range_eq_map {α β : Type} (l : List α) (F : α → β) (f : Nat → Option β)
    (hf : ∀ i, f i = (l.get? i).map F) :
    (List.range l.length).filterMap f = l.map F := by
  induction l generalizing f with
  | nil => simp
  | cons a l ih =>
    have h0 : f 0 = some (F a) := hf 0
    have ih2 := ih (f ∘ Nat.succ) (fun i => hf (i + 1))
    calc (List.range (a :: l).length).filterMap f
        = (0 :: (List.range l.length).map Nat.succ).filterMap f := by
          rw [List.length_cons, List.range_succ_eq_map]
      _ = F a :: ((List.range l.length).map Nat.succ).filterMap f := by
          rw [List.filterMap_cons_some h0]
      _ = F a :: (List.range l.length).filterMap (f ∘ Nat.succ) := by
          rw [List.filterMap_map]
      _ = F a :: l.map F := by rw [ih2]
      _ = (a :: l).map F := rfl

/-- On the empty old tree the model diff is one addition per new file. -/
theorem modelTreeDiff_nil (newT : List (String × String)) :
    modelTreeDiff [] newT = newT.map modelAddRaw := by
  induction newT with
  | nil => rfl
  | cons g t ih =>
    unfold modelTreeDiff at ih ⊢
    simpa [List.filterMap_cons] using ih

/-- Extraction from the model diff handle is total in range. -/
theorem modelDiffHandle_extract (oldT newT : List (String × String)) (i : Nat) :
    extractAt (modelDiffHandle oldT newT) i =
      ((modelTreeDiff oldT newT).get? i).map (fun dd => mkDelta dd (modelPatchText dd)) := by
  cases hg : (modelTreeDiff oldT newT)[i]? with
  | none => simp [extractAt, modelDiffHandle, hg]
  | some dd => simp [extractAt, modelDiffHandle, hg]

/-- Patch release never fails on the model diff handle. -/
theorem modelDiffHandle_free (oldT newT : List (String × String)) (i : Nat) :
    freeSucceedsAt (modelDiffHandle oldT newT) i := by
  unfold freeSucceedsAt
  cases hg : (modelTreeDiff oldT newT)[i]? with
  | none => simp [modelDiffHandle, hg]
  | some dd => simp [modelDiffHandle, hg]

/-- C1: the walk-seeding contract of `loadCommits` fails on the code: when
a branch matches the HEAD target but carries no upstream, the source
dereferences the nil `Upstream` pointer (`currentbranch.Upstream.Hash`)
instead of falling back to seeding the walk from HEAD, so `loadCommits`
does not proceed without failing: evaluated at `repoC1` (HEAD `"aaaa"`,
one matching branch without upstream) it hits the nil dereference. -/
theorem loadCommits_nil_upstream_nilDeref :
    repoC1.loadCommits = .error GitErr.nilDeref := rfl

/-- C2 counterexample: a diff with one extractable delta whose rendered
stat text has two lines (per-file line plus summary line). `Diff` returns
it without error, yet `Stats()` and `Deltas()` have different lengths, so
the three sequences are not index-aligned. -/
theorem diff_stats_not_aligned :
    repoC2.Diff (commitOfHandle rootRawCommit) = .ok diffC2 ∧
    diffC2.Stats.length ≠ diffC2.Deltas.length := by
  refine ⟨?_, ?_⟩ <;> decide

/-- C2 (amended): `deltas` and `patchs` are produced by the same per-file
iteration and stay index-aligned (`patchs = deltas.map Patch`), while
`stats` is the engine's rendered stat text split on newlines, not a
per-delta sequence. -/
theorem diff_deltas_patchs_aligned_stats_line_split (r : Repository) (c : Commit)
    (rc : RawCommit) (cTree : TreeHandle) (pTree : Option TreeHandle) (diffH : DiffHandle)
    (statsH : StatsHandle) (statsText : String) (n : Nat)
    (ds : List DiffDelta) (ps : List String)
    (hc : c.commit = some rc) (ht : rc.tree = .ok cTree) (hp : parentTree rc = .ok pTree)
    (ho : r.repo.defaultDiffOptions = .ok ())
    (hd : r.repo.diffTreeToTree pTree cTree = .ok diffH)
    (hs : diffH.stats = .ok statsH) (hr : statsH.render80 = .ok statsText)
    (hn : diffH.numDeltas = .ok n)
    (hloop : diffLoop diffH (List.range n) [] [] = .ok (ds, ps)) :
    r.Diff c = .ok { deltas := ds, stats := stringsSplit statsText '\n', patchs := ps } ∧
    ps = ds.map DiffDelta.Patch := by
  constructor
  · rw [diff_eq_loop r c rc cTree pTree diffH statsH statsText n hc ht hp ho hd hs hr hn, hloop]
  · exact diffLoop_aligned diffH (List.range n) [] [] (ds, ps) rfl hloop

/-- C2 witness: the amended statement at the concrete one-delta diff. -/
theorem diff_deltas_patchs_aligned_stats_line_split_witness :
    repoC2.Diff (commitOfHandle rootRawCommit) =
      .ok { deltas := [mkDelta rdC2 "patch-a"],
            stats := stringsSplit " a.txt | 1 +\n 1 file changed, 1 insertion(+)" '\n',
            patchs := ["patch-a"] } ∧
    ["patch-a"] = [mkDelta rdC2 "patch-a"].map DiffDelta.Patch :=
  diff_deltas_patchs_aligned_stats_line_split repoC2 (commitOfHandle rootRawCommit)
    rootRawCommit 0 none dhC2
    { render80 := .ok " a.txt | 1 +\n 1 file changed, 1 insertion(+)" }
    " a.txt | 1 +\n 1 file changed, 1 insertion(+)" 1
    [mkDelta rdC2 "patch-a"] ["patch-a"]
    rfl rfl rfl rfl rfl rfl rfl rfl rfl

/-- C3: the release contract fails on the code: on `repoC3` (one delta
where `diff.Patch(0)` succeeds but `diff.GetDelta(0)` fails) the patch
handle for index 0 is acquired but never released — the `continue` paths
of the loop skip the `patch.Free()` call — while `Diff` still returns
without error. -/
theorem diff_patch_handle_leak :
    DiffEvent.acquirePatch 0 ∈ diffEvents repoC3 (commitOfHandle rootRawCommit) ∧
    DiffEvent.freePatch 0 ∉ diffEvents repoC3 (commitOfHandle rootRawCommit) ∧
    repoC3.Diff (commitOfHandle rootRawCommit) =
      .ok { deltas := [], stats := [""], patchs := [] } := by
  refine ⟨?_, ?_, ?_⟩ <;> decide

/-- C4: every `Diff` value returned without error by `Repository.Diff` or
`Repository.DiffFromHash` has `Patches()` and `Deltas()` of equal length,
and `Patches()[i] = Deltas()[i].Patch` at every index. -/
theorem diff_deltas_patches_aligned (r : Repository) (c : Commit) (hashArg : String)
    (d : Diff) (h : r.Diff c = .ok d ∨ r.DiffFromHash hashArg = .ok d) :
    d.Patches.length = d.Deltas.length ∧
    ∀ i : Nat, d.Patches.get? i = (d.Deltas.get? i).map DiffDelta.Patch := by
  have hmap : d.patchs = d.deltas.map DiffDelta.Patch := by
    cases h with
    | inl h =>
      obtain ⟨rc, cT, pT, dh, sh, sT, n, _, _, _, _, _, _, _, _, hloop, _⟩ :=
        diff_ok_inv r c d h
      exact diffLoop_aligned dh (List.range n) [] [] (d.deltas, d.patchs) rfl hloop
    | inr h =>
      obtain ⟨oid, rc, _, _, hdiff⟩ := diffFromHash_ok_inv r hashArg d h
      obtain ⟨rc2, cT, pT, dh, sh, sT, n, _, _, _, _, _, _, _, _, hloop, _⟩ :=
        diff_ok_inv _ _ _ hdiff
      exact diffLoop_aligned dh (List.range n) [] [] (d.deltas, d.patchs) rfl hloop
  constructor
  · show d.patchs.length = d.deltas.length
    rw [hmap, List.length_map]
  · intro i
    show d.patchs.get? i = (d.deltas.get? i).map DiffDelta.Patch
    rw [hmap, List.get?_map]

/-- C4 witness: the alignment at a concrete one-delta diff. -/
theorem diff_deltas_patches_aligned_witness :
    (repoC4.Diff (commitOfHandle rootRawCommit) = .ok diffC4 ∨
     repoC4.DiffFromHash "" = .ok diffC4) ∧
    diffC4.Patches.length = diffC4.Deltas.length :=
  ⟨Or.inl rfl,
   (diff_deltas_patches_aligned repoC4 (commitOfHandle rootRawCommit) "" diffC4
     (Or.inl rfl)).1⟩

/-- C5: when the steps before the loop succeed and no patch release
fails, a failure of `diff.Patch(i)`, `diff.GetDelta(i)` or
`patch.String()` skips exactly that index — `Diff` returns without error
the deltas extractable over all indices below the delta count (so
`Deltas()` can be shorter than that count). -/
theorem diff_extraction_failures_skipped (r : Repository) (c : Commit) (rc : RawCommit)
    (cTree : TreeHandle) (pTree : Option TreeHandle) (diffH : DiffHandle)
    (statsH : StatsHandle) (statsText : String) (n : Nat)
    (hc : c.commit = some rc) (ht : rc.tree = .ok cTree) (hp : parentTree rc = .ok pTree)
    (ho : r.repo.defaultDiffOptions = .ok ())
    (hd : r.repo.diffTreeToTree pTree cTree = .ok diffH)
    (hs : diffH.stats = .ok statsH) (hr : statsH.render80 = .ok statsText)
    (hn : diffH.numDeltas = .ok n)
    (hfree : ∀ i, i < n → freeSucceedsAt diffH i) :
    r.Diff c = .ok { deltas := (List.range n).filterMap (extractAt diffH),
                     stats := stringsSplit statsText '\n',
                     patchs := ((List.range n).filterMap (extractAt diffH)).map
                       DiffDelta.Patch } := by
  rw [diff_eq_loop r c rc cTree pTree diffH statsH statsText n hc ht hp ho hd hs hr hn]
  rw [diffLoop_ok diffH (List.range n) [] []
    (fun i hi => hfree i (List.mem_range.mp hi))]
  simp

/-- C5 witness: on `repoC5` (two reported deltas, index 1 unextractable)
`Diff` returns without error with a single delta — strictly fewer than
the underlying delta count 2. -/
theorem diff_extraction_failures_skipped_witness :
    repoC5.Diff (commitOfHandle rootRawCommit) =
      .ok { deltas := (List.range 2).filterMap (extractAt dhC5),
            stats := stringsSplit "" '\n',
            patchs := ((List.range 2).filterMap (extractAt dhC5)).map DiffDelta.Patch } ∧
    ((List.range 2).filterMap (extractAt dhC5)).length = 1 ∧ (1 : Nat) < 2 :=
  ⟨diff_extraction_failures_skipped repoC5 (commitOfHandle rootRawCommit) rootRawCommit
      0 none dhC5 { render80 := .ok "" } "" 2 rfl rfl rfl rfl rfl rfl rfl rfl
      (by
        intro i hi
        interval_cases i
        · exact fun _ => rfl
        · exact trivial),
   by decide, by decide⟩

/-- C6: a failing `patch.Free()` at the first fully extracted index makes
`Diff` return exactly that error (no diff value), in contrast to the
skipped extraction failures; the hypotheses constrain nothing past index
`i`, so no later delta influences the result. -/
theorem diff_patch_free_failure_fatal (r : Repository) (c : Commit) (rc : RawCommit)
    (cTree : TreeHandle) (pTree : Option TreeHandle) (diffH : DiffHandle)
    (statsH : StatsHandle) (statsText : String) (n i : Nat) (patch : PatchHandle)
    (dd : RawDelta) (patchtext : String) (e : GitErr)
    (hc : c.commit = some rc) (ht : rc.tree = .ok cTree) (hp : parentTree rc = .ok pTree)
    (ho : r.repo.defaultDiffOptions = .ok ())
    (hd : r.repo.diffTreeToTree pTree cTree = .ok diffH)
    (hs : diffH.stats = .ok statsH) (hr : statsH.render80 = .ok statsText)
    (hn : diffH.numDeltas = .ok n)
    (hi : i < n) (hpa : diffH.patchAt i = .ok patch) (hgd : diffH.getDelta i = .ok dd)
    (hrd : patch.render = .ok patchtext) (hf : patch.free = .error e)
    (hbefore : ∀ j, j < i → freeSucceedsAt diffH j) :
    r.Diff c = .error e := by
  rw [diff_eq_loop r c rc cTree pTree diffH statsH statsText n hc ht hp ho hd hs hr hn]
  obtain ⟨k, hk⟩ : ∃ k, n - i = k + 1 := ⟨n - i - 1, by omega⟩
  have h3 : (i :: List.range' (i + 1) k) = List.range' i (n - i) := by
    rw [hk, List.range'_succ]
  have h1 := List.range'_append_1 0 i (n - i)
  simp only [Nat.zero_add] at h1
  have h2 : n - i + i = n := by omega
  rw [h2] at h1
  have hsplit : List.range n = List.range' 0 i ++ (i :: List.range' (i + 1) k) := by
    rw [List.range_eq_range', h3, h1]
  rw [hsplit, diffLoop_error diffH i patch dd patchtext e hpa hgd hrd hf
    (List.range' 0 i) (List.range' (i + 1) k) [] []
    (fun j hj => hbefore j (by
      have := List.mem_range'_1.mp hj
      omega))]

/-- C6 witness: on `repoC6`, where releasing the patch at index 0 fails,
`Diff` returns that error. -/
theorem diff_patch_free_failure_fatal_witness :
    repoC6.Diff (commitOfHandle rootRawCommit) = .error (.err "free failed") :=
  diff_patch_free_failure_fatal repoC6 (commitOfHandle rootRawCommit) rootRawCommit
    0 none dhC6 { render80 := .ok "" } "" 1 0 patchC6 rdC2 "patch-a" (.err "free failed")
    rfl rfl rfl rfl rfl rfl rfl rfl (by decide) rfl rfl rfl rfl
    (fun j hj => absurd hj (Nat.not_lt_zero j))

/-- Auxiliary invariant carried through the `loadBranches` fold: a
non-remote branch's upstream, when present, is remote, and a remote
branch never has one. -/
theorem loadBranchesFold_invariant (raws : List RawBranchRef) :
    ∀ (acc : List Branch),
      (∀ b ∈ acc, (b.isRemote = false → ∀ u, b.Upstream = some u → u.isRemote = true) ∧
                  (b.isRemote = true → b.Upstream = none)) →
      ∀ b ∈ (loadBranchesFold raws acc).1,
        (b.isRemote = false → ∀ u, b.Upstream = some u → u.isRemote = true) ∧
        (b.isRemote = true → b.Upstream = none) := by
  induction raws with
  | nil => intro acc hacc b hb; exact hacc b hb
  | cons br rest ih =>
    intro acc hacc b hb
    cases hn : br.name with
    | error e =>
      simp only [loadBranchesFold, hn] at hb
      exact hacc b hb
    | ok nm =>
      cases hh : branchHash br with
      | error e =>
        simp only [loadBranchesFold, hn, hh] at hb
        exact hacc b hb
      | ok hash =>
        simp only [loadBranchesFold, hn, hh] at hb
        refine ih (acc ++ [Branch.mk nm br.refName hash (branchUpstream br) [] [] false
          br.isRemote]) ?_ b hb
        intro b2 hb2
        rcases List.mem_append.mp hb2 with h2 | h2
        · exact hacc b2 h2
        · have hb2eq : b2 = Branch.mk nm br.refName hash (branchUpstream br) [] [] false
            br.isRemote := List.mem_singleton.mp h2
          subst hb2eq
          constructor
          · intro hnr u hu
            simp only [Branch.isRemote] at hnr
            simp only [Branch.Upstream, branchUpstream, hnr] at hu
            simp only [Bool.false_eq_true, if_false] at hu
            cases hus : br.upstream with
            | none => rw [hus] at hu; exact Option.noConfusion hu
            | some us =>
              rw [hus] at hu
              injection hu with hu
              subst hu
              rfl
          · intro hre
            simp only [Branch.isRemote] at hre
            simp only [Branch.Upstream, branchUpstream, hre, if_true]

/-- C7: after `loadBranches`, every branch in the produced list satisfies
the upstream invariant: a non-remote branch's `Upstream`, when set, is a
remote reference, and a remote branch never has an `Upstream`. -/
theorem loadBranches_upstream_invariant (r : Repository) (b : Branch)
    (hb : b ∈ (r.loadBranches).1) :
    (b.isRemote = false → ∀ u, b.Upstream = some u → u.isRemote = true) ∧
    (b.isRemote = true → b.Upstream = none) := by
  unfold Repository.loadBranches at hb
  cases hbi : r.repo.branchIter with
  | error e => simp only [hbi] at hb; simp at hb
  | ok raws =>
    simp only [hbi] at hb
    exact loadBranchesFold_invariant raws [] (by simp) b hb

/-- C7 witness: on `repoC7` the loaded local branch `branchC7` carries
the upstream `upstreamC7`, which is remote. -/
theorem loadBranches_upstream_invariant_witness : upstreamC7.isRemote = true :=
  (loadBranches_upstream_invariant repoC7 branchC7
    (by exact List.mem_cons_self _ _)).1 rfl upstreamC7 rfl

/-- C8: when the hash parses and resolves to a commit handle,
`DiffFromHash` equals `Diff` applied to the Commit built from only that
raw handle (all metadata fields at their zero values), equals `Diff` on
any commit carrying the same handle (such as the materialized one), and
the accessor sequences of the two results coincide. -/
theorem diffFromHash_eq_diff (r : Repository) (hashArg oid : String) (rc : RawCommit)
    (c : Commit)
    (h1 : r.repo.newOid hashArg = .ok oid) (h2 : r.repo.lookupCommit oid = .ok rc)
    (h3 : c.commit = some rc) :
    r.DiffFromHash hashArg =
      r.Diff { commit := some rc, Hash := "", Author := none, Message := "",
               Summary := "", «Type» := "" } ∧
    r.DiffFromHash hashArg = r.Diff c ∧
    ∀ d1 d2, r.DiffFromHash hashArg = .ok d1 → r.Diff c = .ok d2 →
      d1.Deltas = d2.Deltas ∧ d1.Patches = d2.Patches ∧ d1.Stats = d2.Stats := by
  have key : r.DiffFromHash hashArg =
      r.Diff { commit := some rc, Hash := "", Author := none, Message := "",
               Summary := "", «Type» := "" } := by
    unfold Repository.DiffFromHash
    simp only [h1, h2]
  have key2 : r.DiffFromHash hashArg = r.Diff c := by
    rw [key]
    exact diff_commit_eq r _ c h3.symm
  refine ⟨key, key2, ?_⟩
  intro d1 d2 e1 e2
  rw [key2, e2] at e1
  injection e1 with e1
  subst e1
  exact ⟨rfl, rfl, rfl⟩

/-- C8 witness: `DiffFromHash "abcd"` and `Diff` on the materialized
commit with that hash agree on `repoC8`. -/
theorem diffFromHash_eq_diff_witness :
    repoC8.DiffFromHash "abcd" = repoC8.Diff commitC8 :=
  (diffFromHash_eq_diff repoC8 "abcd" "abcd" rootRawCommit commitC8 rfl rfl rfl).2.1

/-- C9: under the spec-modelled engine, `Diff` of a parentless commit
diffs its tree against the empty tree and returns one delta per file of
the tree, in tree order, each with an empty `OldFile.Path`. -/
theorem diff_root_commit_all_additions (trees : TreeHandle → List (String × String))
    (r : Repository) (rc : RawCommit) (c : Commit) (cTree : TreeHandle)
    (hr : r.repo = modelStore trees) (hc : c.commit = some rc)
    (h0 : rc.parentCount = 0) (ht : rc.tree = .ok cTree) :
    r.Diff c = .ok { deltas := (trees cTree).map modelAddDelta,
                     stats := stringsSplit "" '\n',
                     patchs := ((trees cTree).map modelAddDelta).map DiffDelta.Patch } ∧
    ∀ dd ∈ (trees cTree).map modelAddDelta, dd.OldFile.Path = "" := by
  constructor
  · have hp : parentTree rc = .ok none := by simp [parentTree, h0]
    have ho : r.repo.defaultDiffOptions = .ok () := by rw [hr]; rfl
    have hd : r.repo.diffTreeToTree none cTree =
        .ok (modelDiffHandle [] (trees cTree)) := by rw [hr]; rfl
    rw [diff_eq_loop r c rc cTree none (modelDiffHandle [] (trees cTree))
      { render80 := .ok "" } "" (modelTreeDiff [] (trees cTree)).length
      hc ht hp ho hd rfl rfl rfl]
    rw [diffLoop_ok (modelDiffHandle [] (trees cTree))
      (List.range (modelTreeDiff [] (trees cTree)).length) [] []
      (fun i _ => modelDiffHandle_free [] (trees cTree) i)]
    have hFM : (List.range (modelTreeDiff [] (trees cTree)).length).filterMap
        (extractAt (modelDiffHandle [] (trees cTree))) =
        (trees cTree).map modelAddDelta := by
      rw [filterMap_range_eq_map (modelTreeDiff [] (trees cTree))
        (fun dd => mkDelta dd (modelPatchText dd)) _
        (modelDiffHandle_extract [] (trees cTree))]
      rw [modelTreeDiff_nil, List.map_map]
      rfl
    simp [hFM]
  · intro dd hdd
    obtain ⟨g, hg, hgd⟩ := List.mem_map.mp hdd
    subst hgd
    rfl

/-- C9 witness: the root-commit behaviour at the concrete two-file tree
table `treesC9`. -/
theorem diff_root_commit_all_additions_witness :
    repoC9.Diff (commitOfHandle rootRawCommit) =
      .ok { deltas := (treesC9 0).map modelAddDelta,
            stats := stringsSplit "" '\n',
            patchs := ((treesC9 0).map modelAddDelta).map DiffDelta.Patch } :=
  (diff_root_commit_all_additions treesC9 repoC9 rootRawCommit
    (commitOfHandle rootRawCommit) 0 rfl rfl rfl rfl).1

/-- C10: on a delta with equal non-empty paths and full-length hashes,
`DiffDelta.String` renders the path followed by exactly the first 7
characters of the stored `OldFile.Hash` and `NewFile.Hash`. -/
theorem diffDelta_string_first_seven (d : DiffDelta)
    (h1 : 0 < d.OldFile.Path.length) (h2 : 0 < d.NewFile.Path.length)
    (h3 : d.OldFile.Path = d.NewFile.Path)
    (h4 : 7 ≤ d.OldFile.Hash.length) (h5 : 7 ≤ d.NewFile.Hash.length) :
    DiffDelta.String d =
      some (toString d.Status ++ " " ++ d.OldFile.Path ++ " " ++
            d.OldFile.Hash.take 7 ++ ".." ++ d.NewFile.Hash.take 7) := by
  unfold DiffDelta.String goStrTake
  rw [if_pos ⟨h1, h2⟩, if_pos h3, if_pos h4, if_pos h5]

/-- C10 witness: the rendering at a concrete delta with 40-character
hashes. -/
theorem diffDelta_string_first_seven_witness :
    DiffDelta.String deltaC10 =
      some (toString deltaC10.Status ++ " " ++ deltaC10.OldFile.Path ++ " " ++
            deltaC10.OldFile.Hash.take 7 ++ ".." ++ deltaC10.NewFile.Hash.take 7) :=
  diffDelta_string_first_seven deltaC10 (by decide) (by decide) rfl (by decide) (by decide)
